import Mathlib

/-!
Shallow embedding of the portzap core (port-to-process scanner and the
graceful termination state machine) together with proofs about the
claims of the specification.

Sources embedded: src/process.rs (data model and PortSpec parsing),
src/killer.rs (kill state machine), src/errors.rs (error type),
src/platform/linux.rs and src/platform/macos.rs (scanner backends).

Modelling conventions:
* Rust strings are `List Char`; machine integers are `Nat` with explicit
  bounds or truncation (`% 65536`) where the source converts.
* OS effects (signal sends, the signal-0 liveness probe, /proc and
  libproc reads) are supplied by explicit environment records: the value
  of field `send n` is the OS outcome of the n-th kill(2) call the
  attempt performs, `probe k` the outcome of the k-th liveness probe.
* Wall-clock time in the graceful polling loop is idealised: each loop
  iteration costs exactly the 100 ms sleep, so iteration k starts at
  elapsed time 100*k; the timeout comparison `start.elapsed() < timeout`
  becomes `100*k < timeout` (timeout in milliseconds).
* Functions also return an `Effects` record logging which signals were
  sent and how many liveness probes ran, making frame properties
  (dry-run sends nothing) statable.
-/

/-- Transport protocol, from src/process.rs `Protocol`. -/
inductive Protocol where
  | Tcp
  | Udp
deriving DecidableEq, Repr

/-- One observed (process, port, protocol) binding, from src/process.rs `ProcessInfo`. -/
structure ProcessInfo where
  pid : Nat
  name : String
  port : Nat
  protocol : Protocol
  command : Option String
  user : Option String
deriving DecidableEq, Repr

/-- Signal kinds, from src/process.rs `KillSignal`. -/
inductive KillSignal where
  | Term
  | Kill
  | Int
  | Hup
deriving DecidableEq, Repr

/-- The Display impl for KillSignal in src/process.rs. -/
def KillSignal.display : KillSignal → String
  | .Term => "SIGTERM"
  | .Kill => "SIGKILL"
  | .Int => "SIGINT"
  | .Hup => "SIGHUP"

/-- Outcome record of one kill attempt, from src/process.rs `KillResult`. -/
structure KillResult where
  process : ProcessInfo
  success : Bool
  signal_sent : String
  error : Option String
deriving DecidableEq, Repr

/-- Kill policy, from src/killer.rs `KillConfig`; the timeout is in milliseconds. -/
structure KillConfig where
  signal : KillSignal
  graceful : Bool
  graceful_timeout : Nat
  dry_run : Bool
deriving DecidableEq, Repr

/-- OS error codes distinguished by src/killer.rs `send_signal`. -/
inductive Errno where
  | EPERM
  | ESRCH
  | other (s : String)
deriving DecidableEq, Repr

/-- Environment supplying OS outcomes: `send n` is the result of the n-th
kill(2) signal send this attempt performs, `probe k` the result of the
k-th signal-0 liveness probe. -/
structure KillEnv where
  send : Nat → Except Errno Unit
  probe : Nat → Except Errno Unit

/-- Log of externally visible effects of one kill attempt. -/
structure Effects where
  sent : List KillSignal
  probes : Nat
deriving DecidableEq, Repr

/-- Error-message translation done in src/killer.rs `send_signal`. -/
def errnoMessage : Errno → String
  | .EPERM => "permission denied. Try running with sudo"
  | .ESRCH => "process no longer exists"
  | .other s => s

/-- src/killer.rs `send_signal`: performs the kill(2) call (outcome `os`)
and maps the error into a domain message. -/
def send_signal (os : Except Errno Unit) : Except String Unit :=
  match os with
  | .ok u => .ok u
  | .error e => .error (errnoMessage e)

/-- src/killer.rs `is_process_alive`: `signal::kill(pid, None).is_ok()`. -/
def is_process_alive (os : Except Errno Unit) : Bool :=
  match os with
  | .ok _ => true
  | .error _ => false

/-- The polling loop of src/killer.rs `graceful_kill` (step 2): while
`elapsed < timeout`, probe liveness; return early when the probe says
dead, else sleep 100 ms and continue. Returns (observed dead?, number of
probes performed). `elapsed` is the idealised elapsed time 100*k. -/
def pollLoop (probe : Nat → Except Errno Unit) (timeout : Nat) (elapsed : Nat) (k : Nat) :
    Bool × Nat :=
  if elapsed < timeout then
    if is_process_alive (probe k) then
      pollLoop probe timeout (elapsed + 100) (k + 1)
    else
      (true, k + 1)
  else
    (false, k)
termination_by timeout - elapsed
decreasing_by simp_wf; omega

/-- src/killer.rs `graceful_kill`: send SIGTERM, poll until dead or
timeout, then escalate to SIGKILL. -/
def graceful_kill (env : KillEnv) (process : ProcessInfo) (config : KillConfig) :
    KillResult × Effects :=
  match send_signal (env.send 0) with
  | .error e =>
      (⟨process, false, KillSignal.Term.display, some e⟩, ⟨[KillSignal.Term], 0⟩)
  | .ok _ =>
      let r := pollLoop env.probe config.graceful_timeout 0 0
      if r.1 then
        (⟨process, true, KillSignal.Term.display, none⟩, ⟨[KillSignal.Term], r.2⟩)
      else
        match send_signal (env.send 1) with
        | .ok _ =>
            (⟨process, true, KillSignal.Term.display ++ " -> " ++ KillSignal.Kill.display,
              none⟩, ⟨[KillSignal.Term, KillSignal.Kill], r.2⟩)
        | .error e =>
            (⟨process, false, KillSignal.Kill.display, some e⟩,
             ⟨[KillSignal.Term, KillSignal.Kill], r.2⟩)

/-- src/killer.rs `force_kill`: send exactly the configured signal once. -/
def force_kill (env : KillEnv) (process : ProcessInfo) (config : KillConfig) :
    KillResult × Effects :=
  match send_signal (env.send 0) with
  | .ok _ =>
      (⟨process, true, config.signal.display, none⟩, ⟨[config.signal], 0⟩)
  | .error e =>
      (⟨process, false, config.signal.display, some e⟩, ⟨[config.signal], 0⟩)

/-- src/killer.rs `kill_process`: dry-run shortcut, else graceful or force. -/
def kill_process (env : KillEnv) (process : ProcessInfo) (config : KillConfig) :
    KillResult × Effects :=
  if config.dry_run then
    (⟨process, true, config.signal.display ++ " (dry-run)", none⟩, ⟨[], 0⟩)
  else
    if config.graceful then
      graceful_kill env process config
    else
      force_kill env process config

/-!
Port-token parsing, from src/process.rs `PortSpec` and src/errors.rs
`KillportError`. Rust `&str` tokens are modelled as `List Char`.
-/

/-- The errors of src/errors.rs `KillportError` reachable from the
embedded core (port parsing and scanner backends). -/
inductive KillportError where
  | invalidPort (n : Nat)
  | invalidPortRange (s : List Char)
  | platformError (s : String)
deriving DecidableEq, Repr

/-- The decimal digit character for `d < 10`. -/
def decDigit (d : Nat) : Char :=
  Char.ofNat (48 + d)

/-- Canonical decimal numeral of a natural number, most significant
digit first (the text form `format!` produces for an integer). -/
def natToDecimal (n : Nat) : List Char :=
  if _h : n < 10 then
    [decDigit n]
  else
    natToDecimal (n / 10) ++ [decDigit (n % 10)]
termination_by n
decreasing_by simp_wf; omega

/-- The `#[error(...)]` display strings of src/errors.rs. -/
def KillportError.message : KillportError → List Char
  | .invalidPort n =>
      String.toList "port " ++ natToDecimal n ++ String.toList " is not in valid range (1-65535)"
  | .invalidPortRange s => String.toList "invalid port range: " ++ s
  | .platformError s => String.toList "platform error: " ++ s.toList

/-- One step of accumulating a decimal value; a non-digit character
poisons the accumulator. -/
def pushDigit (acc : Option Nat) (c : Char) : Option Nat :=
  match acc with
  | none => none
  | some v => if c.isDigit then some (v * 10 + (c.toNat - 48)) else none

/-- Value of a nonempty all-digit character sequence; `none` when the
sequence is empty or has a non-digit. -/
def parseDigits (s : List Char) : Option Nat :=
  match s with
  | [] => none
  | _ => s.foldl pushDigit (some 0)

/-- Strip one leading '+' sign, as Rust integer `FromStr` accepts. -/
def stripPlus (s : List Char) : List Char :=
  match s with
  | [] => []
  | c :: rest => if c = '+' then rest else c :: rest

/-- Rust `str::parse` for an unsigned integer type with maximum value
`bound`: an optional leading '+', then one or more decimal digits, with
overflow (value above `bound`) an error. -/
def rustParseUnsigned (bound : Nat) (s : List Char) : Option Nat :=
  match parseDigits (stripPlus s) with
  | none => none
  | some n => if n ≤ bound then some n else none

/-- Rust `str::split_once`: split at the first occurrence of `c`. -/
def splitOnce (c : Char) : List Char → Option (List Char × List Char)
  | [] => none
  | x :: xs =>
      if x = c then some ([], xs)
      else (splitOnce c xs).map (fun p => (x :: p.1, p.2))

/-- A parsed port specification, from src/process.rs `PortSpec`. -/
inductive PortSpec where
  | single (p : Nat)
  | range (s e : Nat)
deriving DecidableEq, Repr

/-- The `format!("start ({start}) > end ({end})")` message. -/
def reversedRangeMsg (s e : Nat) : List Char :=
  String.toList "start (" ++ natToDecimal s ++ String.toList ") > end (" ++
    natToDecimal e ++ [')']

/-- src/process.rs `PortSpec::parse`. Range endpoints parse as u16
(maximum 65535), a lone token parses as u32 (maximum 4294967295) and is
then range-checked. -/
def PortSpec.parse (s : List Char) : Except KillportError PortSpec :=
  match splitOnce '-' s with
  | some (startStr, endStr) =>
      match rustParseUnsigned 65535 startStr with
      | none => .error (.invalidPortRange s)
      | some start =>
          match rustParseUnsigned 65535 endStr with
          | none => .error (.invalidPortRange s)
          | some e =>
              if start > e then
                .error (.invalidPortRange (reversedRangeMsg start e))
              else if start = 0 then
                .error (.invalidPortRange (String.toList "port 0 is not valid"))
              else
                .ok (.range start e)
  | none =>
      match rustParseUnsigned 4294967295 s with
      | none => .error (.invalidPort 0)
      | some n =>
          if n = 0 ∨ n > 65535 then .error (.invalidPort n)
          else .ok (.single n)

/-- src/process.rs `PortSpec::expand`: a single port gives `[p]`, a
range gives the ascending inclusive sequence. -/
def PortSpec.expand : PortSpec → List Nat
  | .single p => [p]
  | .range s e => List.range' s (e + 1 - s)

/-- Whether a `pat` occurs as a contiguous run starting at the head. -/
def startsWithSeq : List Char → List Char → Bool
  | [], _ => true
  | _ :: _, [] => false
  | c :: ps, h :: hs => c == h && startsWithSeq ps hs

/-- Whether `pat` occurs as a contiguous run anywhere in `hay`. -/
def containsSeq : List Char → List Char → Bool
  | hay, pat =>
      startsWithSeq pat hay ||
        match hay with
        | [] => false
        | _ :: hs => containsSeq hs pat

/-!
Scanner backends. The kernel state each backend reads (the /proc
socket tables and per-process descriptor tables on Linux; the libproc
pid/fd/socket queries on macOS) is modelled as an explicit state record;
fallible reads are `Option`/`Except` exactly where the source handles a
`Result`.
-/

/-- The ordering key of `results.sort_by_key(|p| (p.port, p.pid))`:
port ascending, then pid ascending. -/
def keyLe (p q : ProcessInfo) : Prop :=
  p.port < q.port ∨ (p.port = q.port ∧ p.pid ≤ q.pid)

instance : DecidableRel keyLe := fun p q => by
  unfold keyLe; infer_instance

instance : IsTotal ProcessInfo keyLe :=
  ⟨fun p q => by unfold keyLe; omega⟩

instance : IsTrans ProcessInfo keyLe :=
  ⟨fun p q r hpq hqr => by unfold keyLe at *; omega⟩

/-- The deduplication key used by the macOS backend and by the spec:
the (pid, port, protocol) triple, protocol encoded as in macos.rs. -/
def triple (p : ProcessInfo) : Nat × Nat × Nat :=
  (p.pid, p.port, match p.protocol with | .Tcp => 0 | .Udp => 1)

/-- One row of a /proc/net/{tcp,udp}{,6} table: socket inode and local
port (the only fields linux.rs reads). -/
structure NetEntry where
  inode : Nat
  port : Nat
deriving DecidableEq, Repr

/-- One /proc/PID/fd entry: `some inode` for `FDTarget::Socket(inode)`,
`none` for every other descriptor target. -/
structure LinuxFd where
  target : Option Nat
deriving DecidableEq, Repr

/-- One readable /proc process entry: pid, its fd table (`none` when
`proc.fd()` fails), its comm from stat (`none` when `stat()` fails) and
its cmdline parts (`none` when `cmdline()` fails). -/
structure LinuxProc where
  pid : Nat
  fds : Option (List LinuxFd)
  comm : Option String
  cmdline : Option (List String)
deriving DecidableEq, Repr

/-- Kernel state read by the Linux backend: the four net tables (`none`
when reading the table fails, which linux.rs silently skips) and the
process list (`Except` for `all_processes` failing as a whole; a `none`
element is a process whose entry failed to read). -/
structure LinuxState where
  tcp : Option (List NetEntry)
  tcp6 : Option (List NetEntry)
  udp : Option (List NetEntry)
  udp6 : Option (List NetEntry)
  procs : Except String (List (Option LinuxProc))

/-- Association-list image of the `HashMap` in linux.rs
`all_listening_inodes`: insertion prepends, lookup takes the most recent
binding, matching `HashMap::insert` overwrite semantics. -/
def insertNetEntries (proto : Protocol) (table : Option (List NetEntry))
    (m : List (Nat × Nat × Protocol)) : List (Nat × Nat × Protocol) :=
  match table with
  | none => m
  | some l => l.foldl (fun m e => if e.port > 0 then (e.inode, e.port, proto) :: m else m) m

/-- linux.rs `all_listening_inodes`: collect all inodes with their port
and protocol from the four tables, in source order. -/
def all_listening_inodes (st : LinuxState) : List (Nat × Nat × Protocol) :=
  insertNetEntries .Udp st.udp6
    (insertNetEntries .Udp st.udp
      (insertNetEntries .Tcp st.tcp6
        (insertNetEntries .Tcp st.tcp [])))

/-- `HashMap::get` on the association-list image. -/
def inodeLookup (m : List (Nat × Nat × Protocol)) (inode : Nat) : Option (Nat × Protocol) :=
  (m.find? (fun e => e.1 == inode)).map (fun e => e.2)

/-- The ProcessInfo linux.rs builds for a hit: comm (or "<unknown>"),
cmdline parts joined by spaces, user always absent. -/
def linuxProcessInfo (p : LinuxProc) (port : Nat) (proto : Protocol) : ProcessInfo :=
  ⟨p.pid, p.comm.getD "<unknown>", port, proto,
    p.cmdline.map (fun parts => String.intercalate " " parts), none⟩

/-- The descriptor walk of one process in linux.rs `find_all_listening`:
every socket descriptor whose inode is in the map yields a record (no
break, no deduplication). -/
def linuxProcHits (m : List (Nat × Nat × Protocol)) (p : LinuxProc) : List ProcessInfo :=
  match p.fds with
  | none => []
  | some fds =>
      fds.filterMap (fun fd =>
        match fd.target with
        | some inode =>
            (inodeLookup m inode).map (fun pp => linuxProcessInfo p pp.1 pp.2)
        | none => none)

/-- linux.rs `LinuxScanner::find_all_listening`. -/
def linuxFindAllListening (st : LinuxState) : Except KillportError (List ProcessInfo) :=
  let m := all_listening_inodes st
  if m.isEmpty then .ok []
  else
    match st.procs with
    | .error e => .error (.platformError ("failed to read /proc: " ++ e))
    | .ok procs =>
        let results := procs.foldl (fun acc pr =>
          match pr with
          | none => acc
          | some p => acc ++ linuxProcHits m p) []
        .ok (List.insertionSort keyLe results)

/-- The socket-kind tag macos.rs compares `soi_kind` against. -/
inductive SockKind where
  | tcp
  | inet
  | otherKind
deriving DecidableEq, Repr

/-- The fields macos.rs reads out of a `SocketFDInfo`: the kind tag and
the raw `insi_lport` value (an i32 whose low 16 bits hold the
big-endian port). -/
structure MacSocketInfo where
  kind : SockKind
  lport : Nat
deriving DecidableEq, Repr

/-- One descriptor of a process: whether `proc_fdtype` is Socket, and
the socket info (`none` when `pidfdinfo` fails). -/
structure MacFd where
  isSocket : Bool
  info : Option MacSocketInfo
deriving DecidableEq, Repr

/-- Per-pid state read via libproc: the descriptor list (`none` when
`listpidinfo` fails; at most 256 entries are returned), `name(pid)` and
`pidpath(pid)` outcomes. -/
structure MacProc where
  fds : Option (List MacFd)
  name : Option String
  path : Option String

/-- Kernel state read by the macOS backend: the pid list (`Except` for
`pids_by_type` failing) and the per-pid data. -/
structure MacState where
  pids : Except String (List Nat)
  proc : Nat → MacProc

/-- `u16::from_be` on a little-endian host: swap the two bytes. -/
def u16FromBe (n : Nat) : Nat :=
  (n % 256) * 256 + (n / 256) % 256

/-- macos.rs `extract_port_info`: TCP sockets carry the port in the tcp
socket info, UDP sockets show up under the shared internet-socket kind;
ports are `as u16` then byte-swapped; port 0 yields nothing. -/
def extract_port_info (si : MacSocketInfo) : Option (Nat × Protocol) :=
  match si.kind with
  | .tcp =>
      let port := u16FromBe (si.lport % 65536)
      if port > 0 then some (port, .Tcp) else none
  | .inet =>
      let port := u16FromBe (si.lport % 65536)
      if port > 0 then some (port, .Udp) else none
  | .otherKind => none

/-- The descriptor loop of macos.rs `scan_process_fds`: skip non-socket
descriptors and failed `pidfdinfo` reads; with a port filter, stop at
the first match; without one, collect every binding. -/
def scanFds (fds : List MacFd) (portFilter : Option Nat) : List (Nat × Protocol) :=
  match fds with
  | [] => []
  | fd :: rest =>
      if fd.isSocket then
        match fd.info with
        | none => scanFds rest portFilter
        | some si =>
            match extract_port_info si with
            | none => scanFds rest portFilter
            | some pp =>
                match portFilter with
                | some target =>
                    if pp.1 = target then [pp] else scanFds rest portFilter
                | none => pp :: scanFds rest portFilter
      else
        scanFds rest portFilter

/-- macos.rs `scan_process_fds`: a failed `listpidinfo` yields no
bindings; otherwise walk (at most 256) descriptors. -/
def scan_process_fds (st : MacState) (pid : Nat) (portFilter : Option Nat) :
    List (Nat × Protocol) :=
  match (st.proc pid).fds with
  | none => []
  | some fds => scanFds (fds.take 256) portFilter

/-- macos.rs `get_process_info`. -/
def macProcessInfo (st : MacState) (pid : Nat) (port : Nat) (proto : Protocol) : ProcessInfo :=
  ⟨pid, (st.proc pid).name.getD "<unknown>", port, proto, (st.proc pid).path, none⟩

/-- Protocol tag used in the macos.rs dedup key. -/
def protoTag : Protocol → Nat
  | .Tcp => 0
  | .Udp => 1

/-- The inner body of the macos.rs `find_all_listening` double loop:
push a binding unless its (pid, port, protocol) key was already seen. -/
def macInner (st : MacState) (pid : Nat) (acc : List ProcessInfo × List (Nat × Nat × Nat))
    (pp : Nat × Protocol) : List ProcessInfo × List (Nat × Nat × Nat) :=
  let key : Nat × Nat × Nat := (pid, pp.1, protoTag pp.2)
  if key ∈ acc.2 then acc
  else (acc.1 ++ [macProcessInfo st pid pp.1 pp.2], key :: acc.2)

/-- The per-pid body of the macos.rs `find_all_listening` loop. -/
def macStep (st : MacState) (acc : List ProcessInfo × List (Nat × Nat × Nat)) (pid : Nat) :
    List ProcessInfo × List (Nat × Nat × Nat) :=
  if pid = 0 then acc
  else (scan_process_fds st pid none).foldl (macInner st pid) acc

/-- macos.rs `MacosScanner::find_all_listening`. -/
def macosFindAllListening (st : MacState) : Except KillportError (List ProcessInfo) :=
  match st.pids with
  | .error e => .error (.platformError ("failed to list PIDs: " ++ e))
  | .ok pids =>
      let results := (pids.foldl (macStep st) ([], [])).1
      .ok (List.insertionSort keyLe results)

/-!
Concrete inputs for witnesses and counterexamples.
-/

/-- A sample process record. -/
def samplePI : ProcessInfo := ⟨1234, "node", 3000, .Tcp, none, none⟩

/-- OS behaviour: every send accepted, every probe reports the target gone. -/
def envOkDead : KillEnv := ⟨fun _ => .ok (), fun _ => .error .ESRCH⟩

/-- OS behaviour: every send accepted, every probe fails with EPERM. -/
def envOkEperm : KillEnv := ⟨fun _ => .ok (), fun _ => .error .EPERM⟩

/-- OS behaviour: every send accepted, every probe reports the target alive. -/
def envOkAlive : KillEnv := ⟨fun _ => .ok (), fun _ => .ok ()⟩

/-- OS behaviour: every send fails with ESRCH (target vanished). -/
def envEsrchSend : KillEnv := ⟨fun _ => .error .ESRCH, fun _ => .ok ()⟩

/-- Graceful default-style config: SIGTERM, graceful, 5 s, no dry run. -/
def cfgGrace : KillConfig := ⟨.Term, true, 5000, false⟩

/-- Graceful config with a zero timeout. -/
def cfgGrace0 : KillConfig := ⟨.Term, true, 0, false⟩

/-- Non-graceful config with the SIGKILL signal. -/
def cfgForce : KillConfig := ⟨.Kill, false, 5000, false⟩

/-- Dry-run config. -/
def cfgDry : KillConfig := ⟨.Int, true, 5000, true⟩

/-- A Linux kernel state where pid 5 holds two descriptors for the same
socket inode 7 bound to TCP port 80 (for example a dup'd listener). -/
def linuxDupState : LinuxState :=
  { tcp := some [⟨7, 80⟩], tcp6 := none, udp := none, udp6 := none,
    procs := .ok [some ⟨5, some [⟨some 7⟩, ⟨some 7⟩], some "srv", none⟩] }

/-- The record the Linux backend emits for pid 5 in `linuxDupState`. -/
def dupPI : ProcessInfo := ⟨5, "srv", 80, .Tcp, none, none⟩

/-- A macOS state: pids 3 and 2 each own one TCP socket whose raw
big-endian local port value decodes to port 80. -/
def macSampleState : MacState :=
  { pids := .ok [3, 2],
    proc := fun _ => ⟨some [⟨true, some ⟨.tcp, 20480⟩⟩], some "x", none⟩ }

/-!
Lemmas about the polling loop.
-/

/-- If some probe within the timeout window reports the process gone,
the polling loop ends with "observed dead". -/
theorem pollLoop_dead (probe : Nat → Except Errno Unit) (timeout : Nat) (k : Nat)
    (h : ∃ j, k ≤ j ∧ 100 * j < timeout ∧ is_process_alive (probe j) = false) :
    (pollLoop probe timeout (100 * k) k).1 = true := by
  obtain ⟨j, hkj, hj, hdead⟩ := h
  have hlt : 100 * k < timeout := lt_of_le_of_lt (by omega) hj
  rw [pollLoop]
  simp only [if_pos hlt]
  by_cases ha : is_process_alive (probe k) = true
  · have hkj' : k + 1 ≤ j := by
      rcases Nat.eq_or_lt_of_le hkj with h | h
      · exact absurd hdead (by rw [h] at ha; simp [ha])
      · omega
    have : (pollLoop probe timeout (100 * (k + 1)) (k + 1)).1 = true :=
      pollLoop_dead probe timeout (k + 1) ⟨j, hkj', hj, hdead⟩
    simpa [ha, Nat.mul_add] using this
  · simp at ha
    simp [ha]
termination_by timeout - 100 * k
decreasing_by simp_wf; omega

/-- If every probe within the timeout window reports the process alive,
the polling loop ends with "timed out, still alive". -/
theorem pollLoop_alive (probe : Nat → Except Errno Unit) (timeout : Nat) (k : Nat)
    (h : ∀ j, 100 * j < timeout → is_process_alive (probe j) = true) :
    (pollLoop probe timeout (100 * k) k).1 = false := by
  rw [pollLoop]
  by_cases hlt : 100 * k < timeout
  · have ha := h k hlt
    have : (pollLoop probe timeout (100 * (k + 1)) (k + 1)).1 = false :=
      pollLoop_alive probe timeout (k + 1) h
    simp only [if_pos hlt, ha, if_true]
    simpa [Nat.mul_add] using this
  · simp [hlt]
termination_by timeout - 100 * k
decreasing_by simp_wf; omega

/-- With a zero timeout the loop runs no iteration at all. -/
theorem pollLoop_zero (probe : Nat → Except Errno Unit) :
    pollLoop probe 0 0 0 = (false, 0) := by
  rw [pollLoop]
  simp

/-!
Result-shape lemmas for the graceful path of `kill_process`.
-/

/-- On a graceful non-dry-run attempt, `kill_process` is `graceful_kill`. -/
theorem kill_process_graceful (env : KillEnv) (p : ProcessInfo) (cfg : KillConfig)
    (hg : cfg.graceful = true) (hd : cfg.dry_run = false) :
    kill_process env p cfg = graceful_kill env p cfg := by
  simp [kill_process, hd, hg]

/-- Graceful attempt, terminate send accepted, some probe within the
window reports the process gone: early success, terminate-only label. -/
theorem graceful_dead_result (env : KillEnv) (p : ProcessInfo) (cfg : KillConfig)
    (hg : cfg.graceful = true) (hd : cfg.dry_run = false)
    (hsend : env.send 0 = .ok ())
    (h : ∃ k, 100 * k < cfg.graceful_timeout ∧ is_process_alive (env.probe k) = false) :
    (kill_process env p cfg).1 = ⟨p, true, "SIGTERM", none⟩ ∧
    (kill_process env p cfg).2.sent = [KillSignal.Term] := by
  obtain ⟨k, hk, hkd⟩ := h
  have h0 : (pollLoop env.probe cfg.graceful_timeout 0 0).1 = true := by
    have := pollLoop_dead env.probe cfg.graceful_timeout 0 ⟨k, Nat.zero_le k, hk, hkd⟩
    simpa using this
  rw [kill_process_graceful env p cfg hg hd]
  simp [graceful_kill, hsend, send_signal, h0, KillSignal.display]

/-- Graceful attempt, terminate send accepted, every probe within the
window reports the process alive: escalation to the kill signal. -/
theorem graceful_alive_result (env : KillEnv) (p : ProcessInfo) (cfg : KillConfig)
    (hg : cfg.graceful = true) (hd : cfg.dry_run = false)
    (hsend : env.send 0 = .ok ())
    (h : ∀ k, 100 * k < cfg.graceful_timeout → is_process_alive (env.probe k) = true) :
    (kill_process env p cfg).2.sent = [KillSignal.Term, KillSignal.Kill] ∧
    (env.send 1 = .ok () →
      (kill_process env p cfg).1 = ⟨p, true, "SIGTERM -> SIGKILL", none⟩) ∧
    (∀ e, env.send 1 = .error e →
      (kill_process env p cfg).1 = ⟨p, false, "SIGKILL", some (errnoMessage e)⟩) := by
  have h0 : (pollLoop env.probe cfg.graceful_timeout 0 0).1 = false := by
    have := pollLoop_alive env.probe cfg.graceful_timeout 0 h
    simpa using this
  rw [kill_process_graceful env p cfg hg hd]
  cases h1 : env.send 1 with
  | ok u =>
      simp [graceful_kill, hsend, send_signal, h0, h1, KillSignal.display]
  | error e =>
      simp [graceful_kill, hsend, send_signal, h0, h1, KillSignal.display]

/-!
Claim theorems.
-/

/-- C1: for a graceful, non-dry-run attempt whose terminate send
succeeds: a process observed dead within the timeout window gives
success with the terminate-only label; a process alive through the whole
window gets the unconditional kill signal sent, with success and the
escalation label when that send succeeds and failure carrying the
underlying error when it fails. -/
theorem graceful_term_ok_outcomes (env : KillEnv) (p : ProcessInfo) (cfg : KillConfig)
    (hg : cfg.graceful = true) (hd : cfg.dry_run = false)
    (hsend : env.send 0 = .ok ()) :
    ((∃ k, 100 * k < cfg.graceful_timeout ∧ is_process_alive (env.probe k) = false) →
      (kill_process env p cfg).1 = ⟨p, true, "SIGTERM", none⟩) ∧
    ((∀ k, 100 * k < cfg.graceful_timeout → is_process_alive (env.probe k) = true) →
      (kill_process env p cfg).2.sent = [KillSignal.Term, KillSignal.Kill] ∧
      (env.send 1 = .ok () →
        (kill_process env p cfg).1 = ⟨p, true, "SIGTERM -> SIGKILL", none⟩) ∧
      (∀ e, env.send 1 = .error e →
        (kill_process env p cfg).1 = ⟨p, false, "SIGKILL", some (errnoMessage e)⟩)) :=
  ⟨fun h => (graceful_dead_result env p cfg hg hd hsend h).1,
   fun h => graceful_alive_result env p cfg hg hd hsend h⟩

/-- Witness for C1: a target gone at the first probe gives the
terminate-only success, a target alive the whole window gives the
escalation result. -/
theorem graceful_term_ok_outcomes_witness :
    (kill_process envOkDead samplePI cfgGrace).1 = ⟨samplePI, true, "SIGTERM", none⟩ ∧
    (kill_process envOkAlive samplePI cfgGrace).1 =
      ⟨samplePI, true, "SIGTERM -> SIGKILL", none⟩ :=
  ⟨(graceful_term_ok_outcomes envOkDead samplePI cfgGrace rfl rfl rfl).1
      ⟨0, by decide, rfl⟩,
   (((graceful_term_ok_outcomes envOkAlive samplePI cfgGrace rfl rfl rfl).2
      (fun _ _ => rfl)).2.1 rfl)⟩

/-- C2 counterexample: with every probe failing with EPERM (permission
denied), the graceful attempt is reported as an early success with the
terminate-only label after a single probe, instead of polling on
conservatively; the claim that an erroring probe is treated as "still
alive" is false on the code. -/
theorem probe_error_early_success_cex :
    envOkEperm.probe 0 = .error .EPERM ∧
    (kill_process envOkEperm samplePI cfgGrace).1 = ⟨samplePI, true, "SIGTERM", none⟩ ∧
    (kill_process envOkEperm samplePI cfgGrace).2.probes = 1 := by
  have hp : pollLoop (fun _ => Except.error Errno.EPERM) 5000 0 0 = (true, 1) := by
    rw [pollLoop]
    simp [is_process_alive]
  refine ⟨rfl, ?_, ?_⟩ <;>
    simp [kill_process, cfgGrace, graceful_kill, envOkEperm, send_signal, hp,
      KillSignal.display]

/-- C2 amended: a probe result of "target does not exist" is dead, and
every other probe error (for example permission denied) is likewise
treated as dead — only a successful probe counts as alive — so any probe
error within the window ends polling and the attempt is reported as
success with the terminate-only label. -/
theorem probe_error_treated_dead (env : KillEnv) (p : ProcessInfo) (cfg : KillConfig)
    (hg : cfg.graceful = true) (hd : cfg.dry_run = false)
    (hsend : env.send 0 = .ok ())
    (h : ∃ k, 100 * k < cfg.graceful_timeout ∧ ∃ e, env.probe k = .error e) :
    (∀ e, is_process_alive (.error e) = false) ∧
    (kill_process env p cfg).1 = ⟨p, true, "SIGTERM", none⟩ := by
  obtain ⟨k, hk, e, he⟩ := h
  exact ⟨fun _ => rfl,
    (graceful_dead_result env p cfg hg hd hsend ⟨k, hk, by rw [he]; rfl⟩).1⟩

/-- Witness for the amended C2 at the EPERM environment. -/
theorem probe_error_treated_dead_witness :
    envOkEperm.probe 0 = .error .EPERM ∧
    (kill_process envOkEperm samplePI cfgGrace).1 = ⟨samplePI, true, "SIGTERM", none⟩ :=
  ⟨rfl, (probe_error_treated_dead envOkEperm samplePI cfgGrace rfl rfl rfl
    ⟨0, by decide, .EPERM, rfl⟩).2⟩

/-- C3 counterexample: when the target PID no longer exists at send time
(ESRCH), both the graceful and the non-graceful paths report failure
(`success = false`) with the error "process no longer exists" — not the
success outcome the claim states. -/
theorem vanished_reported_failure_cex :
    (kill_process envEsrchSend samplePI cfgGrace).1 =
      ⟨samplePI, false, "SIGTERM", some "process no longer exists"⟩ ∧
    (kill_process envEsrchSend samplePI cfgForce).1 =
      ⟨samplePI, false, "SIGKILL", some "process no longer exists"⟩ := by
  constructor <;>
    simp [kill_process, cfgGrace, cfgForce, graceful_kill, force_kill, envEsrchSend,
      send_signal, errnoMessage, KillSignal.display]

/-- C3 amended: a kill attempt (graceful or not) whose target PID no
longer exists when the signal is sent reports failure: `success = false`
with the error string "process no longer exists". -/
theorem vanished_send_reports_failure (env : KillEnv) (p : ProcessInfo) (cfg : KillConfig)
    (hd : cfg.dry_run = false) (hsend : env.send 0 = .error .ESRCH) :
    (kill_process env p cfg).1.success = false ∧
    (kill_process env p cfg).1.error = some "process no longer exists" := by
  cases hg : cfg.graceful <;>
    simp [kill_process, hd, hg, graceful_kill, force_kill, hsend, send_signal, errnoMessage]

/-- Witness for the amended C3 on the graceful path. -/
theorem vanished_send_reports_failure_witness :
    (kill_process envEsrchSend samplePI cfgGrace).1.success = false ∧
    (kill_process envEsrchSend samplePI cfgGrace).1.error =
      some "process no longer exists" :=
  vanished_send_reports_failure envEsrchSend samplePI cfgGrace rfl rfl

/-- C6: on a non-dry-run attempt, graceful mode sends the polite
terminate signal first no matter which signal is configured (with the
unconditional kill signal the only possible second send), while
non-graceful mode sends exactly the configured signal once and succeeds
precisely when the OS accepted that send. -/
theorem signal_choice_by_mode (env : KillEnv) (p : ProcessInfo) (cfg : KillConfig)
    (hd : cfg.dry_run = false) :
    (cfg.graceful = true →
      (kill_process env p cfg).2.sent.head? = some KillSignal.Term ∧
      ((kill_process env p cfg).2.sent = [KillSignal.Term] ∨
        (kill_process env p cfg).2.sent = [KillSignal.Term, KillSignal.Kill])) ∧
    (cfg.graceful = false →
      (kill_process env p cfg).2.sent = [cfg.signal] ∧
      ((kill_process env p cfg).1.success = true ↔ env.send 0 = .ok ())) := by
  constructor
  · intro hg
    rw [kill_process_graceful env p cfg hg hd]
    cases hs : env.send 0 with
    | error e => simp [graceful_kill, hs, send_signal]
    | ok u =>
        cases hr : (pollLoop env.probe cfg.graceful_timeout 0 0).1
        · cases h1 : env.send 1 <;>
            simp [graceful_kill, hs, send_signal, hr, h1]
        · simp [graceful_kill, hs, send_signal, hr]
  · intro hg
    cases hs : env.send 0 with
    | error e => simp [kill_process, hd, hg, force_kill, hs, send_signal]
    | ok u => cases u; simp [kill_process, hd, hg, force_kill, hs, send_signal]

/-- Witness for C6 at a graceful and a non-graceful config. -/
theorem signal_choice_by_mode_witness :
    (kill_process envOkAlive samplePI cfgGrace).2.sent.head? = some KillSignal.Term ∧
    (kill_process envEsrchSend samplePI cfgForce).2.sent = [KillSignal.Kill] ∧
    (kill_process envEsrchSend samplePI cfgForce).1.success = false :=
  ⟨((signal_choice_by_mode envOkAlive samplePI cfgGrace rfl).1 rfl).1,
   ((signal_choice_by_mode envEsrchSend samplePI cfgForce rfl).2 rfl).1,
   by
    have h := ((signal_choice_by_mode envEsrchSend samplePI cfgForce rfl).2 rfl).2
    cases hsucc : (kill_process envEsrchSend samplePI cfgForce).1.success with
    | false => rfl
    | true => exact absurd (h.mp hsucc) (fun hok => by simp [envEsrchSend] at hok)⟩

/-- C8: a dry-run attempt reports success with the "(dry-run)" label,
carries no error, sends no signal and performs no liveness probe. -/
theorem dry_run_no_effects (env : KillEnv) (p : ProcessInfo) (cfg : KillConfig)
    (h : cfg.dry_run = true) :
    kill_process env p cfg =
      (⟨p, true, cfg.signal.display ++ " (dry-run)", none⟩, ⟨[], 0⟩) := by
  simp [kill_process, h]

/-- Witness for C8 at the dry-run config. -/
theorem dry_run_no_effects_witness :
    kill_process envOkAlive samplePI cfgDry =
      (⟨samplePI, true, "SIGINT (dry-run)", none⟩, ⟨[], 0⟩) := by
  rw [dry_run_no_effects envOkAlive samplePI cfgDry rfl]
  rfl

/-- C9: every KillResult produced by kill_process has its success flag
true exactly when its error field is empty, on all paths. -/
theorem kill_success_iff_no_error (env : KillEnv) (p : ProcessInfo) (cfg : KillConfig) :
    (kill_process env p cfg).1.success = true ↔ (kill_process env p cfg).1.error = none := by
  cases hd : cfg.dry_run
  · cases hg : cfg.graceful
    · cases hs : env.send 0 <;>
        simp [kill_process, hd, hg, force_kill, send_signal, hs]
    · cases hs : env.send 0 with
      | error e => simp [kill_process, hd, hg, graceful_kill, send_signal, hs]
      | ok u =>
          cases hr : (pollLoop env.probe cfg.graceful_timeout 0 0).1
          · cases h1 : env.send 1 <;>
              simp [kill_process, hd, hg, graceful_kill, send_signal, hs, hr, h1]
          · simp [kill_process, hd, hg, graceful_kill, send_signal, hs, hr]
  · simp [kill_process, hd]

/-- C10: a graceful, non-dry-run attempt with a zero graceful timeout
whose terminate send succeeds performs no liveness probe at all and goes
straight to the kill signal, reporting the escalation label when that
send succeeds — whatever the probes would have answered. -/
theorem zero_timeout_skips_polling (env : KillEnv) (p : ProcessInfo) (cfg : KillConfig)
    (hg : cfg.graceful = true) (hd : cfg.dry_run = false)
    (ht : cfg.graceful_timeout = 0) (hsend : env.send 0 = .ok ()) :
    (kill_process env p cfg).2.probes = 0 ∧
    (kill_process env p cfg).2.sent = [KillSignal.Term, KillSignal.Kill] ∧
    (env.send 1 = .ok () →
      (kill_process env p cfg).1 = ⟨p, true, "SIGTERM -> SIGKILL", none⟩) := by
  rw [kill_process_graceful env p cfg hg hd]
  have h0 : pollLoop env.probe cfg.graceful_timeout 0 0 = (false, 0) := by
    rw [ht]; exact pollLoop_zero env.probe
  cases h1 : env.send 1 <;>
    simp [graceful_kill, hsend, send_signal, h0, h1, KillSignal.display]

/-!
Lemmas about decimal numerals and the port-token parser.
-/

theorem decDigit_isDigit (d : Nat) (h : d < 10) : (decDigit d).isDigit = true := by
  interval_cases d <;> decide

theorem decDigit_toNat (d : Nat) (h : d < 10) : (decDigit d).toNat = 48 + d := by
  interval_cases d <;> decide

theorem natToDecimal_ne_nil (n : Nat) : natToDecimal n ≠ [] := by
  rw [natToDecimal]
  split
  · simp
  · simp

theorem natToDecimal_all_digits (n : Nat) : ∀ c ∈ natToDecimal n, c.isDigit = true := by
  rw [natToDecimal]
  split
  · next h =>
      intro c hc
      simp only [List.mem_singleton] at hc
      subst hc
      exact decDigit_isDigit n h
  · next h =>
      intro c hc
      rcases List.mem_append.mp hc with h1 | h2
      · exact natToDecimal_all_digits (n / 10) c h1
      · simp only [List.mem_singleton] at h2
        subst h2
        exact decDigit_isDigit (n % 10) (Nat.mod_lt n (by omega))
termination_by n
decreasing_by simp_wf; omega

theorem isDigit_ne_dash {c : Char} (h : c.isDigit = true) : c ≠ '-' := by
  rintro rfl
  exact absurd h (by decide)

theorem isDigit_ne_plus {c : Char} (h : c.isDigit = true) : c ≠ '+' := by
  rintro rfl
  exact absurd h (by decide)

theorem foldl_pushDigit_none (l : List Char) : l.foldl pushDigit none = none := by
  induction l with
  | nil => rfl
  | cons c cs ih =>
      rw [List.foldl_cons]
      exact ih

theorem foldl_pushDigit_digits {l : List Char} {v w : Nat}
    (h : l.foldl pushDigit (some v) = some w) : ∀ c ∈ l, c.isDigit = true := by
  induction l generalizing v with
  | nil => simp
  | cons c cs ih =>
      intro x hx
      by_cases hc : c.isDigit = true
      · rcases List.mem_cons.mp hx with rfl | hxs
        · exact hc
        · exact ih (v := v * 10 + (c.toNat - 48)) (by simpa [pushDigit, hc] using h) x hxs
      · rw [List.foldl_cons] at h
        have hnone : pushDigit (some v) c = none := by simp [pushDigit, hc]
        rw [hnone, foldl_pushDigit_none] at h
        cases h

theorem parseDigits_digits {s : List Char} {v : Nat}
    (h : parseDigits s = some v) : s ≠ [] ∧ ∀ c ∈ s, c.isDigit = true := by
  cases s with
  | nil => cases h
  | cons c cs =>
      refine ⟨by simp, ?_⟩
      exact foldl_pushDigit_digits (l := c :: cs) (v := 0) h

theorem foldl_natToDecimal (n : Nat) :
    ∀ v, (natToDecimal n).foldl pushDigit (some v) =
      some (v * 10 ^ (natToDecimal n).length + n) := by
  intro v
  rw [natToDecimal]
  split
  · next h =>
      simp [pushDigit, decDigit_isDigit n h, decDigit_toNat n h]
  · next h =>
      rw [List.foldl_append]
      rw [foldl_natToDecimal (n / 10) v]
      have h10 : (n % 10) < 10 := Nat.mod_lt n (by omega)
      simp only [List.foldl_cons, List.foldl_nil, pushDigit, decDigit_isDigit (n % 10) h10,
        decDigit_toNat (n % 10) h10, if_true, List.length_append, List.length_singleton]
      congr 1
      have h48 : 48 + n % 10 - 48 = n % 10 := by omega
      rw [h48, pow_succ]
      have hdm : n / 10 * 10 + n % 10 = n := by omega
      calc (v * 10 ^ (natToDecimal (n / 10)).length + n / 10) * 10 + n % 10
          = v * 10 ^ (natToDecimal (n / 10)).length * 10 + (n / 10 * 10 + n % 10) := by
            ring
        _ = v * (10 ^ (natToDecimal (n / 10)).length * 10) + n := by
            rw [mul_assoc, hdm]
termination_by n
decreasing_by simp_wf; omega

theorem parseDigits_natToDecimal (n : Nat) : parseDigits (natToDecimal n) = some n := by
  have hne := natToDecimal_ne_nil n
  cases hnd : natToDecimal n with
  | nil => exact absurd hnd hne
  | cons c cs =>
      have := foldl_natToDecimal n 0
      rw [hnd] at this
      simpa [parseDigits] using this

theorem stripPlus_of_digits {s : List Char} (h : ∀ c ∈ s, c.isDigit = true) :
    stripPlus s = s := by
  cases s with
  | nil => rfl
  | cons c cs =>
      have : c ≠ '+' := isDigit_ne_plus (h c (by simp))
      simp [stripPlus, this]

theorem mem_stripPlus {s : List Char} {c : Char} (h : c ∈ s) :
    c = '+' ∨ c ∈ stripPlus s := by
  cases s with
  | nil => cases h
  | cons x xs =>
      by_cases hx : x = '+'
      · subst hx
        rcases List.mem_cons.mp h with rfl | hm
        · exact Or.inl rfl
        · exact Or.inr (by simpa [stripPlus] using hm)
      · simp only [stripPlus, if_neg hx]
        exact Or.inr h

theorem rustParseUnsigned_natToDecimal {bound n : Nat} (h : n ≤ bound) :
    rustParseUnsigned bound (natToDecimal n) = some n := by
  rw [rustParseUnsigned, stripPlus_of_digits (natToDecimal_all_digits n),
    parseDigits_natToDecimal]
  simp [h]

theorem rustParseUnsigned_natToDecimal_overflow {bound n : Nat} (h : bound < n) :
    rustParseUnsigned bound (natToDecimal n) = none := by
  rw [rustParseUnsigned, stripPlus_of_digits (natToDecimal_all_digits n),
    parseDigits_natToDecimal]
  simp [Nat.not_le.mpr h]

theorem rustParseUnsigned_eq_some {bound : Nat} {s : List Char} {n : Nat}
    (h : rustParseUnsigned bound s = some n) :
    parseDigits (stripPlus s) = some n ∧ n ≤ bound := by
  rw [rustParseUnsigned] at h
  cases hp : parseDigits (stripPlus s) with
  | none => rw [hp] at h; cases h
  | some v =>
      rw [hp] at h
      have h2 : (if v ≤ bound then some v else none) = some n := h
      by_cases hb : v ≤ bound
      · rw [if_pos hb] at h2
        cases h2
        exact ⟨rfl, hb⟩
      · rw [if_neg hb] at h2
        cases h2

theorem splitOnce_of_all_ne {c : Char} {s : List Char} (h : ∀ x ∈ s, x ≠ c) :
    splitOnce c s = none := by
  induction s with
  | nil => rfl
  | cons x xs ih =>
      have hx : x ≠ c := h x (by simp)
      simp only [splitOnce, if_neg hx]
      rw [ih (fun y hy => h y (by simp [hy]))]
      rfl

theorem splitOnce_append {c : Char} {a b : List Char} (h : ∀ x ∈ a, x ≠ c) :
    splitOnce c (a ++ c :: b) = some (a, b) := by
  induction a with
  | nil => simp [splitOnce]
  | cons x xs ih =>
      have hx : x ≠ c := h x (by simp)
      have ih2 := ih (fun y hy => h y (by simp [hy]))
      simp [splitOnce, hx, List.append_eq, ih2]

theorem splitOnce_eq_some {c : Char} {s a b : List Char}
    (h : splitOnce c s = some (a, b)) : s = a ++ c :: b ∧ ∀ x ∈ a, x ≠ c := by
  induction s generalizing a with
  | nil => cases h
  | cons x xs ih =>
      by_cases hx : x = c
      · subst hx
        simp only [splitOnce, if_pos rfl] at h
        cases h
        exact ⟨rfl, by simp⟩
      · simp only [splitOnce, if_neg hx] at h
        cases hs : splitOnce c xs with
        | none => rw [hs] at h; cases h
        | some p =>
            rw [hs] at h
            simp at h
            obtain ⟨ha, hb⟩ := h
            subst ha
            subst hb
            obtain ⟨h1, h2⟩ := ih hs
            constructor
            · rw [h1]
              rfl
            · intro y hy
              rcases List.mem_cons.mp hy with rfl | hm
              · exact hx
              · exact h2 y hm

theorem splitOnce_natToDecimal (n : Nat) : splitOnce '-' (natToDecimal n) = none :=
  splitOnce_of_all_ne (fun x hx => isDigit_ne_dash (natToDecimal_all_digits n x hx))

theorem startsWithSeq_app (pat t : List Char) : startsWithSeq pat (pat ++ t) = true := by
  induction pat with
  | nil => rfl
  | cons c cs ih => simp [startsWithSeq, ih]

theorem containsSeq_append (pre s : List Char) : containsSeq (pre ++ s) s = true := by
  induction pre with
  | nil =>
      have := startsWithSeq_app s []
      rw [List.append_nil] at this
      cases s with
      | nil => rfl
      | cons c cs => simp [containsSeq, this]
  | cons p ps ih =>
      simp [containsSeq, ih]

theorem splitOnce_dec_pair (n1 n2 : Nat) :
    splitOnce '-' (natToDecimal n1 ++ '-' :: natToDecimal n2) =
      some (natToDecimal n1, natToDecimal n2) :=
  splitOnce_append (fun x hx => isDigit_ne_dash (natToDecimal_all_digits n1 x hx))

theorem parse_single_canonical {n : Nat} (h1 : 1 ≤ n) (h2 : n ≤ 65535) :
    PortSpec.parse (natToDecimal n) = .ok (.single n) := by
  have hr : rustParseUnsigned 4294967295 (natToDecimal n) = some n :=
    rustParseUnsigned_natToDecimal (by omega)
  simp only [PortSpec.parse, splitOnce_natToDecimal n, hr]
  rw [if_neg (by omega)]

theorem parse_range_canonical {n1 n2 : Nat} (h1 : 1 ≤ n1) (h12 : n1 ≤ n2)
    (h2 : n2 ≤ 65535) :
    PortSpec.parse (natToDecimal n1 ++ '-' :: natToDecimal n2) = .ok (.range n1 n2) := by
  have hr1 : rustParseUnsigned 65535 (natToDecimal n1) = some n1 :=
    rustParseUnsigned_natToDecimal (by omega)
  have hr2 : rustParseUnsigned 65535 (natToDecimal n2) = some n2 :=
    rustParseUnsigned_natToDecimal h2
  simp only [PortSpec.parse, splitOnce_dec_pair n1 n2, hr1, hr2]
  rw [if_neg (by omega), if_neg (by omega)]

theorem parse_reversed_fail {n1 n2 : Nat} (h : n2 < n1) :
    ∃ e, PortSpec.parse (natToDecimal n1 ++ '-' :: natToDecimal n2) = .error e := by
  by_cases h65 : n1 ≤ 65535
  · have hr1 : rustParseUnsigned 65535 (natToDecimal n1) = some n1 :=
      rustParseUnsigned_natToDecimal h65
    have hr2 : rustParseUnsigned 65535 (natToDecimal n2) = some n2 :=
      rustParseUnsigned_natToDecimal (by omega)
    refine ⟨.invalidPortRange (reversedRangeMsg n1 n2), ?_⟩
    simp only [PortSpec.parse, splitOnce_dec_pair n1 n2, hr1, hr2]
    rw [if_pos (by omega)]
  · have hr1 : rustParseUnsigned 65535 (natToDecimal n1) = none :=
      rustParseUnsigned_natToDecimal_overflow (by omega)
    exact ⟨.invalidPortRange (natToDecimal n1 ++ '-' :: natToDecimal n2),
      by simp only [PortSpec.parse, splitOnce_dec_pair n1 n2, hr1]⟩

theorem parse_zero_start_fail (n : Nat) :
    ∃ e, PortSpec.parse (natToDecimal 0 ++ '-' :: natToDecimal n) = .error e := by
  have hr0 : rustParseUnsigned 65535 (natToDecimal 0) = some 0 :=
    rustParseUnsigned_natToDecimal (by omega)
  by_cases hn : n ≤ 65535
  · have hrn : rustParseUnsigned 65535 (natToDecimal n) = some n :=
      rustParseUnsigned_natToDecimal hn
    refine ⟨.invalidPortRange (String.toList "port 0 is not valid"), ?_⟩
    simp only [PortSpec.parse, splitOnce_dec_pair 0 n, hr0, hrn]
    simp
  · have hrn : rustParseUnsigned 65535 (natToDecimal n) = none :=
      rustParseUnsigned_natToDecimal_overflow (by omega)
    exact ⟨.invalidPortRange (natToDecimal 0 ++ '-' :: natToDecimal n),
      by simp only [PortSpec.parse, splitOnce_dec_pair 0 n, hr0, hrn]⟩

theorem parse_zero_end_fail (n : Nat) :
    ∃ e, PortSpec.parse (natToDecimal n ++ '-' :: natToDecimal 0) = .error e := by
  have hr0 : rustParseUnsigned 65535 (natToDecimal 0) = some 0 :=
    rustParseUnsigned_natToDecimal (by omega)
  by_cases hn : n ≤ 65535
  · have hrn : rustParseUnsigned 65535 (natToDecimal n) = some n :=
      rustParseUnsigned_natToDecimal hn
    by_cases h0 : n = 0
    · subst h0
      refine ⟨.invalidPortRange (String.toList "port 0 is not valid"), ?_⟩
      simp only [PortSpec.parse, splitOnce_dec_pair 0 0, hr0]
      simp
    · refine ⟨.invalidPortRange (reversedRangeMsg n 0), ?_⟩
      simp only [PortSpec.parse, splitOnce_dec_pair n 0, hrn, hr0]
      rw [if_pos (by omega)]
  · have hrn : rustParseUnsigned 65535 (natToDecimal n) = none :=
      rustParseUnsigned_natToDecimal_overflow (by omega)
    exact ⟨.invalidPortRange (natToDecimal n ++ '-' :: natToDecimal 0),
      by simp only [PortSpec.parse, splitOnce_dec_pair n 0, hrn]⟩

theorem parse_zero_single_fail : ∃ e, PortSpec.parse (natToDecimal 0) = .error e := by
  have hr : rustParseUnsigned 4294967295 (natToDecimal 0) = some 0 :=
    rustParseUnsigned_natToDecimal (by omega)
  refine ⟨.invalidPort 0, ?_⟩
  simp only [PortSpec.parse, splitOnce_natToDecimal 0, hr]
  simp

theorem parse_nonnumeric_fail {s : List Char}
    (h : ∃ c, c ∈ s ∧ c.isDigit = false ∧ c ≠ '-' ∧ c ≠ '+') :
    ∃ e, PortSpec.parse s = .error e := by
  obtain ⟨c, hcs, hcd, hdash, hplus⟩ := h
  cases hsplit : splitOnce '-' s with
  | none =>
      cases hr : rustParseUnsigned 4294967295 s with
      | none => exact ⟨.invalidPort 0, by simp only [PortSpec.parse, hsplit, hr]⟩
      | some v =>
          exfalso
          have hdig := (parseDigits_digits (rustParseUnsigned_eq_some hr).1).2
          rcases mem_stripPlus hcs with h1 | h2
          · exact hplus h1
          · simp [hdig c h2] at hcd
  | some pr =>
      obtain ⟨a, b⟩ := pr
      obtain ⟨hseq, _⟩ := splitOnce_eq_some hsplit
      cases hra : rustParseUnsigned 65535 a with
      | none => exact ⟨.invalidPortRange s, by simp only [PortSpec.parse, hsplit, hra]⟩
      | some v1 =>
          cases hrb : rustParseUnsigned 65535 b with
          | none =>
              exact ⟨.invalidPortRange s, by simp only [PortSpec.parse, hsplit, hra, hrb]⟩
          | some v2 =>
              exfalso
              subst hseq
              rcases List.mem_append.mp hcs with hma | hmb
              · have hdig := (parseDigits_digits (rustParseUnsigned_eq_some hra).1).2
                rcases mem_stripPlus hma with h1 | h2
                · exact hplus h1
                · simp [hdig c h2] at hcd
              · rcases List.mem_cons.mp hmb with rfl | hmb2
                · exact hdash rfl
                · have hdig := (parseDigits_digits (rustParseUnsigned_eq_some hrb).1).2
                  rcases mem_stripPlus hmb2 with h1 | h2
                  · exact hplus h1
                  · simp [hdig c h2] at hcd

theorem parse_single_overflow_fail {n : Nat} (h : 65535 < n) :
    ∃ e, PortSpec.parse (natToDecimal n) = .error e := by
  by_cases hu : n ≤ 4294967295
  · have hr : rustParseUnsigned 4294967295 (natToDecimal n) = some n :=
      rustParseUnsigned_natToDecimal hu
    refine ⟨.invalidPort n, ?_⟩
    simp only [PortSpec.parse, splitOnce_natToDecimal n, hr]
    rw [if_pos (by omega)]
  · have hr : rustParseUnsigned 4294967295 (natToDecimal n) = none :=
      rustParseUnsigned_natToDecimal_overflow (by omega)
    exact ⟨.invalidPort 0, by simp only [PortSpec.parse, splitOnce_natToDecimal n, hr]⟩

theorem parse_range_overflow_fail {n1 n2 : Nat} (h : 65535 < n1 ∨ 65535 < n2) :
    ∃ e, PortSpec.parse (natToDecimal n1 ++ '-' :: natToDecimal n2) = .error e := by
  by_cases h1 : n1 ≤ 65535
  · have hn2 : 65535 < n2 := by omega
    have hr1 : rustParseUnsigned 65535 (natToDecimal n1) = some n1 :=
      rustParseUnsigned_natToDecimal h1
    have hr2 : rustParseUnsigned 65535 (natToDecimal n2) = none :=
      rustParseUnsigned_natToDecimal_overflow hn2
    exact ⟨.invalidPortRange (natToDecimal n1 ++ '-' :: natToDecimal n2),
      by simp only [PortSpec.parse, splitOnce_dec_pair n1 n2, hr1, hr2]⟩
  · have hr1 : rustParseUnsigned 65535 (natToDecimal n1) = none :=
      rustParseUnsigned_natToDecimal_overflow (by omega)
    exact ⟨.invalidPortRange (natToDecimal n1 ++ '-' :: natToDecimal n2),
      by simp only [PortSpec.parse, splitOnce_dec_pair n1 n2, hr1]⟩

/-- C5: the port-token grammar. Every canonical decimal token "N" with
1 ≤ N ≤ 65535 parses to a single port expanding to [N]; every token
"N1-N2" with 1 ≤ N1 ≤ N2 ≤ 65535 parses to a range whose expansion is
the full ascending inclusive sequence from N1 to N2; reversed ranges,
zero endpoints, tokens holding a character that is not a digit, a dash
or a numeric sign, and out-of-range values all fail parsing. -/
theorem portspec_grammar :
    (∀ n, 1 ≤ n → n ≤ 65535 →
      PortSpec.parse (natToDecimal n) = .ok (.single n) ∧
      (PortSpec.single n).expand = [n]) ∧
    (∀ n1 n2, 1 ≤ n1 → n1 ≤ n2 → n2 ≤ 65535 →
      PortSpec.parse (natToDecimal n1 ++ '-' :: natToDecimal n2) = .ok (.range n1 n2) ∧
      (PortSpec.range n1 n2).expand = List.range' n1 (n2 + 1 - n1) ∧
      (∀ m, m ∈ (PortSpec.range n1 n2).expand ↔ (n1 ≤ m ∧ m ≤ n2)) ∧
      (PortSpec.range n1 n2).expand.Pairwise (· < ·)) ∧
    (∀ n1 n2, n2 < n1 →
      ∃ e, PortSpec.parse (natToDecimal n1 ++ '-' :: natToDecimal n2) = .error e) ∧
    (∀ n,
      (∃ e, PortSpec.parse (natToDecimal 0 ++ '-' :: natToDecimal n) = .error e) ∧
      (∃ e, PortSpec.parse (natToDecimal n ++ '-' :: natToDecimal 0) = .error e)) ∧
    (∃ e, PortSpec.parse (natToDecimal 0) = .error e) ∧
    (∀ s, (∃ c, c ∈ s ∧ c.isDigit = false ∧ c ≠ '-' ∧ c ≠ '+') →
      ∃ e, PortSpec.parse s = .error e) ∧
    (∀ n, 65535 < n → ∃ e, PortSpec.parse (natToDecimal n) = .error e) ∧
    (∀ n1 n2, 65535 < n1 ∨ 65535 < n2 →
      ∃ e, PortSpec.parse (natToDecimal n1 ++ '-' :: natToDecimal n2) = .error e) := by
  refine ⟨?_, ?_, ?_, ?_, parse_zero_single_fail, ?_, ?_, ?_⟩
  · intro n h1 h2
    exact ⟨parse_single_canonical h1 h2, rfl⟩
  · intro n1 n2 h1 h12 h2
    refine ⟨parse_range_canonical h1 h12 h2, rfl, ?_, ?_⟩
    · intro m
      show m ∈ List.range' n1 (n2 + 1 - n1) ↔ _
      rw [List.mem_range'_1]
      omega
    · exact List.pairwise_lt_range' n1 (n2 + 1 - n1)
  · intro n1 n2 h
    exact parse_reversed_fail h
  · intro n
    exact ⟨parse_zero_start_fail n, parse_zero_end_fail n⟩
  · intro s h
    exact parse_nonnumeric_fail h
  · intro n h
    exact parse_single_overflow_fail h
  · intro n1 n2 h
    exact parse_range_overflow_fail h

/-- Witness for C5 at concrete tokens: "80", "3000-3005", the reversed
"3010-3000", the zero tokens "0" and "0-100", the non-numeric "abc" and
the out-of-range "99999". -/
theorem portspec_grammar_witness :
    PortSpec.parse (natToDecimal 80) = .ok (.single 80) ∧
    (PortSpec.single 80).expand = [80] ∧
    PortSpec.parse (natToDecimal 3000 ++ '-' :: natToDecimal 3005) =
      .ok (.range 3000 3005) ∧
    (PortSpec.range 3000 3005).expand = List.range' 3000 (3005 + 1 - 3000) ∧
    (∃ e, PortSpec.parse (natToDecimal 3010 ++ '-' :: natToDecimal 3000) = .error e) ∧
    (∃ e, PortSpec.parse (natToDecimal 0 ++ '-' :: natToDecimal 100) = .error e) ∧
    (∃ e, PortSpec.parse (natToDecimal 0) = .error e) ∧
    (∃ e, PortSpec.parse ['a', 'b', 'c'] = .error e) ∧
    (∃ e, PortSpec.parse (natToDecimal 99999) = .error e) :=
  ⟨(portspec_grammar.1 80 (by decide) (by decide)).1,
   (portspec_grammar.1 80 (by decide) (by decide)).2,
   (portspec_grammar.2.1 3000 3005 (by decide) (by decide) (by decide)).1,
   (portspec_grammar.2.1 3000 3005 (by decide) (by decide) (by decide)).2.1,
   portspec_grammar.2.2.1 3010 3000 (by decide),
   (portspec_grammar.2.2.2.1 100).1,
   portspec_grammar.2.2.2.2.1,
   portspec_grammar.2.2.2.2.2.1 ['a', 'b', 'c']
     ⟨'a', by decide, by decide, by decide, by decide⟩,
   portspec_grammar.2.2.2.2.2.2.1 99999 (by decide)⟩

/-- C7 counterexample: the non-numeric token "abc" produces the error
`invalidPort 0`, whose rendered message "port 0 is not in valid range
(1-65535)" does not contain the offending token at all — the parse
error does not identify the offending token. -/
theorem parse_error_token_identification_cex :
    PortSpec.parse ['a', 'b', 'c'] = .error (.invalidPort 0) ∧
    (KillportError.invalidPort 0).message =
      String.toList "port 0 is not in valid range (1-65535)" ∧
    containsSeq ((KillportError.invalidPort 0).message) ['a', 'b', 'c'] = false := by
  have h0 : natToDecimal 0 = ['0'] := by
    rw [natToDecimal]
    decide
  have hmsg : (KillportError.invalidPort 0).message =
      String.toList "port 0 is not in valid range (1-65535)" := by
    simp only [KillportError.message, h0]
    rfl
  refine ⟨rfl, hmsg, ?_⟩
  rw [hmsg]
  rfl

/-- C7 amended: only tokens of the numeric grammar — with the underlying
integer parser additionally accepting a leading '+' sign and leading
zeros — parse successfully, so every other token fails; the parse error
carries (and its message contains) the offending token when a range
endpoint fails integer parsing, while inverted ranges, zero range
starts, and bad single tokens report the violation by value instead. -/
theorem parse_accepts_only_numeric_forms :
    (∀ s p, PortSpec.parse s = .ok p →
      (∃ n, p = .single n ∧ parseDigits (stripPlus s) = some n ∧ 1 ≤ n ∧ n ≤ 65535) ∨
      (∃ a b n1 n2, s = a ++ '-' :: b ∧ p = .range n1 n2 ∧
        parseDigits (stripPlus a) = some n1 ∧ parseDigits (stripPlus b) = some n2 ∧
        1 ≤ n1 ∧ n1 ≤ n2 ∧ n2 ≤ 65535)) ∧
    (∀ s a b, splitOnce '-' s = some (a, b) →
      rustParseUnsigned 65535 a = none ∨ rustParseUnsigned 65535 b = none →
      PortSpec.parse s = .error (.invalidPortRange s) ∧
      containsSeq ((KillportError.invalidPortRange s).message) s = true) := by
  constructor
  · intro s p hok
    cases hsplit : splitOnce '-' s with
    | none =>
        simp only [PortSpec.parse, hsplit] at hok
        cases hr : rustParseUnsigned 4294967295 s with
        | none => rw [hr] at hok; simp at hok
        | some n =>
            rw [hr] at hok
            have hok2 : (if n = 0 ∨ n > 65535 then
                Except.error (KillportError.invalidPort n)
              else Except.ok (PortSpec.single n)) = Except.ok p := hok
            by_cases hn : n = 0 ∨ n > 65535
            · rw [if_pos hn] at hok2; simp at hok2
            · rw [if_neg hn] at hok2
              left
              injection hok2 with hp
              exact ⟨n, hp.symm, (rustParseUnsigned_eq_some hr).1, by omega, by omega⟩
    | some pr =>
        obtain ⟨a, b⟩ := pr
        obtain ⟨hseq, _⟩ := splitOnce_eq_some hsplit
        simp only [PortSpec.parse, hsplit] at hok
        cases hra : rustParseUnsigned 65535 a with
        | none => rw [hra] at hok; simp at hok
        | some n1 =>
            cases hrb : rustParseUnsigned 65535 b with
            | none => rw [hra, hrb] at hok; simp at hok
            | some n2 =>
                rw [hra, hrb] at hok
                have hok2 : (if n1 > n2 then
                    Except.error (KillportError.invalidPortRange (reversedRangeMsg n1 n2))
                  else if n1 = 0 then
                    Except.error (KillportError.invalidPortRange
                      (String.toList "port 0 is not valid"))
                  else Except.ok (PortSpec.range n1 n2)) = Except.ok p := hok
                by_cases hgt : n1 > n2
                · rw [if_pos hgt] at hok2; simp at hok2
                · rw [if_neg hgt] at hok2
                  by_cases h0 : n1 = 0
                  · rw [if_pos h0] at hok2; simp at hok2
                  · rw [if_neg h0] at hok2
                    injection hok2 with hp
                    right
                    exact ⟨a, b, n1, n2, hseq, hp.symm,
                      (rustParseUnsigned_eq_some hra).1,
                      (rustParseUnsigned_eq_some hrb).1, by omega, by omega,
                      (rustParseUnsigned_eq_some hrb).2⟩
  · intro s a b hsplit hnone
    have hmem : containsSeq ((KillportError.invalidPortRange s).message) s = true := by
      simp only [KillportError.message]
      exact containsSeq_append _ s
    rcases hnone with hna | hnb
    · exact ⟨by simp only [PortSpec.parse, hsplit, hna], hmem⟩
    · cases hra : rustParseUnsigned 65535 a with
      | none => exact ⟨by simp only [PortSpec.parse, hsplit, hra], hmem⟩
      | some n1 =>
          exact ⟨by simp only [PortSpec.parse, hsplit, hra, hnb], hmem⟩

/-- Witness for the amended C7: the token "+80" (not of the plain
grammar) parses via the sign-accepting integer parser, and the range
token "8-x" with an unparseable endpoint is rejected with an error whose
message contains the whole offending token. -/
theorem parse_accepts_only_numeric_forms_witness :
    ((∃ n, PortSpec.single 80 = PortSpec.single n ∧
        parseDigits (stripPlus ['+', '8', '0']) = some n ∧ 1 ≤ n ∧ n ≤ 65535) ∨
      (∃ a b n1 n2, ['+', '8', '0'] = a ++ '-' :: b ∧
        PortSpec.single 80 = PortSpec.range n1 n2 ∧
        parseDigits (stripPlus a) = some n1 ∧ parseDigits (stripPlus b) = some n2 ∧
        1 ≤ n1 ∧ n1 ≤ n2 ∧ n2 ≤ 65535)) ∧
    (PortSpec.parse ['8', '-', 'x'] = .error (.invalidPortRange ['8', '-', 'x']) ∧
      containsSeq ((KillportError.invalidPortRange ['8', '-', 'x']).message)
        ['8', '-', 'x'] = true) :=
  ⟨parse_accepts_only_numeric_forms.1 ['+', '8', '0'] (.single 80) rfl,
   parse_accepts_only_numeric_forms.2 ['8', '-', 'x'] ['8'] ['x'] rfl (Or.inr rfl)⟩

/-!
Lemmas for the scanner backends.
-/

theorem triple_macProcessInfo (st : MacState) (pid port : Nat) (proto : Protocol) :
    triple (macProcessInfo st pid port proto) = (pid, port, protoTag proto) := by
  cases proto <;> rfl

theorem macInner_inv (st : MacState) (pid : Nat) (pp : Nat × Protocol)
    (acc : List ProcessInfo × List (Nat × Nat × Nat))
    (h1 : (acc.1.map triple).Nodup) (h2 : ∀ t ∈ acc.1.map triple, t ∈ acc.2) :
    ((macInner st pid acc pp).1.map triple).Nodup ∧
    ∀ t ∈ (macInner st pid acc pp).1.map triple, t ∈ (macInner st pid acc pp).2 := by
  by_cases hk : ((pid, pp.1, protoTag pp.2) : Nat × Nat × Nat) ∈ acc.2
  · simp only [macInner, if_pos hk]
    exact ⟨h1, h2⟩
  · simp only [macInner, if_neg hk]
    constructor
    · rw [List.map_append, List.nodup_append]
      refine ⟨h1, by simp, ?_⟩
      intro t ht hts
      simp only [List.map_cons, List.map_nil, List.mem_singleton,
        triple_macProcessInfo] at hts
      subst hts
      exact hk (h2 _ ht)
    · intro t ht
      rw [List.map_append] at ht
      rcases List.mem_append.mp ht with hte | hts
      · exact List.mem_cons_of_mem _ (h2 t hte)
      · simp only [List.map_cons, List.map_nil, List.mem_singleton,
          triple_macProcessInfo] at hts
        simp [hts]

theorem foldl_macInner_inv (st : MacState) (pid : Nat) (l : List (Nat × Protocol)) :
    ∀ acc : List ProcessInfo × List (Nat × Nat × Nat),
      (acc.1.map triple).Nodup → (∀ t ∈ acc.1.map triple, t ∈ acc.2) →
      (((l.foldl (macInner st pid) acc).1.map triple).Nodup ∧
        ∀ t ∈ (l.foldl (macInner st pid) acc).1.map triple,
          t ∈ (l.foldl (macInner st pid) acc).2) := by
  induction l with
  | nil => exact fun acc h1 h2 => ⟨h1, h2⟩
  | cons pp rest ih =>
      intro acc h1 h2
      rw [List.foldl_cons]
      obtain ⟨h1n, h2n⟩ := macInner_inv st pid pp acc h1 h2
      exact ih _ h1n h2n

theorem macStep_inv (st : MacState) (pid : Nat)
    (acc : List ProcessInfo × List (Nat × Nat × Nat))
    (h1 : (acc.1.map triple).Nodup) (h2 : ∀ t ∈ acc.1.map triple, t ∈ acc.2) :
    ((macStep st acc pid).1.map triple).Nodup ∧
    ∀ t ∈ (macStep st acc pid).1.map triple, t ∈ (macStep st acc pid).2 := by
  by_cases h0 : pid = 0
  · simp only [macStep, if_pos h0]
    exact ⟨h1, h2⟩
  · simp only [macStep, if_neg h0]
    exact foldl_macInner_inv st pid _ acc h1 h2

theorem foldl_macStep_inv (st : MacState) (pids : List Nat) :
    ∀ acc : List ProcessInfo × List (Nat × Nat × Nat),
      (acc.1.map triple).Nodup → (∀ t ∈ acc.1.map triple, t ∈ acc.2) →
      (((pids.foldl (macStep st) acc).1.map triple).Nodup ∧
        ∀ t ∈ (pids.foldl (macStep st) acc).1.map triple,
          t ∈ (pids.foldl (macStep st) acc).2) := by
  induction pids with
  | nil => exact fun acc h1 h2 => ⟨h1, h2⟩
  | cons pid rest ih =>
      intro acc h1 h2
      rw [List.foldl_cons]
      obtain ⟨h1n, h2n⟩ := macStep_inv st pid acc h1 h2
      exact ih _ h1n h2n

/-- C4 counterexample: on a Linux state where one process holds two
descriptors for the same listening socket, `find_all_listening` returns
the same (pid, port, protocol) record twice — the Linux backend does not
deduplicate. -/
theorem linux_duplicate_triple_cex :
    linuxFindAllListening linuxDupState = .ok [dupPI, dupPI] ∧
    ¬ (([dupPI, dupPI].map triple).Nodup) := by
  constructor
  · rfl
  · decide

/-- C4 amended: every list returned by `find_all_listening` is sorted by
(port ascending, pid ascending) on both backends; the macOS backend
additionally contains no two records with the same (pid, port, protocol)
triple, while the Linux backend does not deduplicate. -/
theorem find_all_listening_sorted_dedup :
    (∀ st l, linuxFindAllListening st = .ok l → List.Sorted keyLe l) ∧
    (∀ st l, macosFindAllListening st = .ok l →
      List.Sorted keyLe l ∧ (l.map triple).Nodup) := by
  constructor
  · intro st l h
    simp only [linuxFindAllListening] at h
    by_cases he : (all_listening_inodes st).isEmpty = true
    · rw [if_pos he] at h
      injection h with hl
      subst hl
      exact List.sorted_nil
    · rw [if_neg he] at h
      cases hp : st.procs with
      | error e =>
          rw [hp] at h
          simp at h
      | ok procs =>
          rw [hp] at h
          injection h with hl
          subst hl
          exact List.sorted_insertionSort keyLe _
  · intro st l h
    cases hp : st.pids with
    | error e =>
        simp only [macosFindAllListening, hp] at h
        cases h
    | ok pids =>
        simp only [macosFindAllListening, hp] at h
        injection h with hl
        subst hl
        constructor
        · exact List.sorted_insertionSort keyLe _
        · have hnd := (foldl_macStep_inv st pids ([], []) (by simp) (by simp)).1
          exact (((List.perm_insertionSort keyLe _).map triple).nodup_iff).mpr hnd

/-- Witness for the amended C4: the duplicate-holding Linux output is
still sorted, and a concrete macOS scan (pids 3 and 2, both on port 80)
comes back pid-sorted and duplicate-free. -/
theorem find_all_listening_sorted_dedup_witness :
    List.Sorted keyLe [dupPI, dupPI] ∧
    (List.Sorted keyLe
        [⟨2, "x", 80, Protocol.Tcp, none, none⟩, ⟨3, "x", 80, Protocol.Tcp, none, none⟩] ∧
      ((([⟨2, "x", 80, Protocol.Tcp, none, none⟩,
          ⟨3, "x", 80, Protocol.Tcp, none, none⟩] : List ProcessInfo)).map triple).Nodup) :=
  ⟨find_all_listening_sorted_dedup.1 linuxDupState [dupPI, dupPI] rfl,
   find_all_listening_sorted_dedup.2 macSampleState
     [⟨2, "x", 80, Protocol.Tcp, none, none⟩, ⟨3, "x", 80, Protocol.Tcp, none, none⟩] rfl⟩

/-- Witness for C10: even with the probe reporting the target already
gone, a zero timeout yields zero probes and the escalation result. -/
theorem zero_timeout_skips_polling_witness :
    is_process_alive (envOkDead.probe 0) = false ∧
    (kill_process envOkDead samplePI cfgGrace0).2.probes = 0 ∧
    (kill_process envOkDead samplePI cfgGrace0).1 =
      ⟨samplePI, true, "SIGTERM -> SIGKILL", none⟩ :=
  ⟨rfl,
   (zero_timeout_skips_polling envOkDead samplePI cfgGrace0 rfl rfl rfl rfl).1,
   (zero_timeout_skips_polling envOkDead samplePI cfgGrace0 rfl rfl rfl rfl).2.2 rfl⟩
